import Mathlib

/-!
Shallow embedding of the Dioptimize worker (src/src/index.js): an in-memory
presence registry (`activeUsers`) with lazy TTL expiry and a single-slot
notification mailbox (`pendingNotifications`), driven by a request handler
(`fetch`).  JS `Map`s are modelled as association lists in insertion order;
timestamps are naturals.
-/

def ADMIN_USERNAME : String := "admin0707"

/-- The JS builtin `String.prototype.trim`: strips leading and trailing
whitespace.  Modelled over the character list so it evaluates by kernel
reduction. -/
def jsTrim (s : String) : String :=
  ⟨((s.data.dropWhile Char.isWhitespace).reverse.dropWhile
      Char.isWhitespace).reverse⟩

/-- The value stored for each user in `activeUsers`. -/
structure UserRecord where
  username : String
  lastSeen : Nat
  loginTime : Nat
deriving Repr, DecidableEq

/-- The value stored in `pendingNotifications` (`{ type, timestamp }`). -/
structure NotificationRecord where
  type : String
  timestamp : Nat
deriving Repr, DecidableEq

/-- A JS `Map` with string keys, as an association list in insertion order. -/
abbrev JsMap (β : Type) := List (String × β)

/-- `m.has(k)`. -/
def mapHas {β : Type} (m : JsMap β) (k : String) : Bool :=
  m.any (fun p => p.1 == k)

/-- `m.get(k)` (`none` models `undefined`). -/
def mapGet {β : Type} (m : JsMap β) (k : String) : Option β :=
  (m.find? (fun p => p.1 == k)).map (·.2)

/-- `m.set(k, v)`: updates in place when the key exists, appends otherwise. -/
def mapSet {β : Type} (m : JsMap β) (k : String) (v : β) : JsMap β :=
  if mapHas m k then m.map (fun p => if p.1 == k then (k, v) else p)
  else m ++ [(k, v)]

/-- `m.delete(k)`. -/
def mapDelete {β : Type} (m : JsMap β) (k : String) : JsMap β :=
  m.filter (fun p => p.1 != k)

/-- `activeUsers.get(username).lastSeen = Date.now()`: in-place mutation of
the stored record's `lastSeen` field. -/
def touchLastSeen (m : JsMap UserRecord) (k : String) (now : Nat) :
    JsMap UserRecord :=
  m.map (fun p => if p.1 == k then (p.1, { p.2 with lastSeen := now }) else p)

/-- `const timeout = 10000` inside `cleanupInactiveUsers`. -/
def timeout : Nat := 10000

/-- `cleanupInactiveUsers()`: deletes every entry with
`now - data.lastSeen > timeout` while iterating `activeUsers`. -/
def cleanupInactiveUsers (now : Nat) (users : JsMap UserRecord) :
    JsMap UserRecord :=
  users.filter (fun p => !(decide (now - p.2.lastSeen > timeout)))

/-- The worker's process-wide mutable state: the two `Map`s. -/
structure WorkerState where
  activeUsers : JsMap UserRecord
  pendingNotifications : JsMap NotificationRecord
deriving Repr, DecidableEq

/-- The state at worker start: both maps empty. -/
def initialState : WorkerState := ⟨[], []⟩

/-- One inbound request to a known route; a body field `username` that is
absent/null is `none`. -/
inductive Request where
  | login (username : Option String)
  | heartbeat (username : Option String)
  | logout (username : Option String)
  | users
  | notify (username : Option String)
  | notifyAll
  | checkNotification (username : Option String)
  | health
deriving Repr, DecidableEq

/-- The JSON response of each handler, abstracted from transport. -/
inductive ApiResponse where
  | loginOk (isAdmin : Bool) (username : String)
  | badRequest (error : String)
  | ok
  | usersList (users : List UserRecord) (count : Nat)
  | notFound (error : String)
  | notifiedAll (count : Nat)
  | notificationResp (hasNotification : Bool)
      (notification : Option NotificationRecord)
  | healthOk (activeUsers : Nat)
deriving Repr, DecidableEq

/-- The HTTP status attached by `jsonResponse`. -/
def ApiResponse.status : ApiResponse → Nat
  | .badRequest _ => 400
  | .notFound _ => 404
  | _ => 200

/-- The dispatch inside the `try` block of `fetch`, run after the sweep. -/
def handle (req : Request) (now : Nat) (st : WorkerState) :
    ApiResponse × WorkerState :=
  match req with
  | .login username =>
    match username with
    | none => (.badRequest "Invalid username", st)
    | some u =>
      if u == "" || jsTrim u == "" then (.badRequest "Invalid username", st)
      else
        let trimmedUsername := jsTrim u
        let isAdmin := trimmedUsername == ADMIN_USERNAME
        if !isAdmin then
          let users := mapSet st.activeUsers trimmedUsername
            (UserRecord.mk trimmedUsername now now)
          (.loginOk isAdmin trimmedUsername, { st with activeUsers := users })
        else (.loginOk isAdmin trimmedUsername, st)
  | .heartbeat username =>
    match username with
    | none => (.badRequest "Username required", st)
    | some u =>
      if u == "" then (.badRequest "Username required", st)
      else if mapHas st.activeUsers u then
        (.ok, { st with activeUsers := touchLastSeen st.activeUsers u now })
      else
        (.ok, { st with activeUsers := mapSet st.activeUsers u ⟨u, now, now⟩ })
  | .logout username =>
    match username with
    | none => (.ok, st)
    | some u =>
      if u == "" then (.ok, st)
      else (.ok, { st with activeUsers := mapDelete st.activeUsers u })
  | .users =>
    let users := st.activeUsers.map (·.2)
    (.usersList users users.length, st)
  | .notify username =>
    match username with
    | none => (.badRequest "Username required", st)
    | some u =>
      if u == "" then (.badRequest "Username required", st)
      else if mapHas st.activeUsers u then
        (.ok, { st with pendingNotifications :=
                  mapSet st.pendingNotifications u ⟨"sound", now⟩ })
      else (.notFound "User not found", st)
  | .notifyAll =>
    let pending := st.activeUsers.foldl
      (fun acc p => mapSet acc p.1 ⟨"sound", now⟩) st.pendingNotifications
    (.notifiedAll st.activeUsers.length,
     { st with pendingNotifications := pending })
  | .checkNotification username =>
    match username with
    | none => (.badRequest "Username required", st)
    | some u =>
      if u == "" then (.badRequest "Username required", st)
      else
        match mapGet st.pendingNotifications u with
        | some n =>
          (.notificationResp true (some n),
           { st with pendingNotifications :=
               mapDelete st.pendingNotifications u })
        | none => (.notificationResp false none, st)
  | .health => (.healthOk st.activeUsers.length, st)

/-- `fetch`: cleans up inactive users on each request, then dispatches. -/
def fetch (req : Request) (now : Nat) (st : WorkerState) :
    ApiResponse × WorkerState :=
  handle req now { st with activeUsers := cleanupInactiveUsers now st.activeUsers }

/-- Run a sequence of timestamped requests from a starting state. -/
def runRequests (reqs : List (Request × Nat)) (st : WorkerState) : WorkerState :=
  reqs.foldl (fun s rn => (fetch rn.1 rn.2 s).2) st

/-! ### Association-list lemmas for the `JsMap` operations -/

theorem mapGet_nil {β : Type} (k : String) : mapGet ([] : JsMap β) k = none :=
  rfl

theorem mapGet_cons {β : Type} (p : String × β) (t : JsMap β) (k : String) :
    mapGet (p :: t) k = if p.1 == k then some p.2 else mapGet t k := by
  by_cases h : p.1 = k
  · have hp : (fun q : String × β => q.1 == k) p = true := by simp [h]
    simp [mapGet, List.find?_cons_of_pos _ hp, h]
  · have hp : ¬ (fun q : String × β => q.1 == k) p = true := by simp [h]
    simp [mapGet, List.find?_cons_of_neg _ hp, h]

theorem mapHas_eq_isSome {β : Type} (m : JsMap β) (k : String) :
    mapHas m k = (mapGet m k).isSome := by
  induction m with
  | nil => rfl
  | cons p t ih =>
    by_cases h : p.1 = k <;>
      simp [mapHas, List.any_cons, mapGet_cons, h, ← ih]

theorem mapHas_true_iff {β : Type} (m : JsMap β) (k : String) :
    mapHas m k = true ↔ ∃ p ∈ m, p.1 = k := by
  simp [mapHas, List.any_eq_true]

theorem mapHas_false_iff {β : Type} (m : JsMap β) (k : String) :
    mapHas m k = false ↔ ∀ p ∈ m, p.1 ≠ k := by
  simp [mapHas, List.any_eq_false]

theorem mapSet_cons_ne {β : Type} (p : String × β) (t : JsMap β) (k : String)
    (v : β) (h : p.1 ≠ k) : mapSet (p :: t) k v = p :: mapSet t k v := by
  have hb : (p.1 == k) = false := by simp [h]
  by_cases ht : mapHas t k = true
  · have h1 : mapHas (p :: t) k = true := by
      simp [mapHas, List.any_cons]
      right
      simpa [mapHas] using ht
    rw [mapSet, mapSet, if_pos h1, if_pos ht, List.map_cons]
    congr 1
    simp [hb]
  · have h1 : ¬ mapHas (p :: t) k = true := by
      rw [mapHas, List.any_cons, hb, Bool.false_or]
      exact ht
    rw [mapSet, mapSet, if_neg h1, if_neg ht, List.cons_append]

theorem mapGet_map_update_ne {β : Type} (t : JsMap β) (k k' : String) (v : β)
    (h : k' ≠ k) :
    mapGet (t.map fun q => if q.1 == k then (k, v) else q) k' = mapGet t k' := by
  induction t with
  | nil => rfl
  | cons q s ih =>
    simp only [List.map_cons]
    by_cases hq : q.1 = k
    · rw [show (if q.1 == k then (k, v) else q) = (k, v) from by simp [hq]]
      rw [mapGet_cons, mapGet_cons]
      rw [if_neg (by simp [Ne.symm h]), if_neg (by simp [hq, Ne.symm h])]
      exact ih
    · rw [show (if q.1 == k then (k, v) else q) = q from by simp [hq]]
      rw [mapGet_cons, mapGet_cons]
      by_cases hq' : q.1 = k'
      · rw [if_pos (by simp [hq']), if_pos (by simp [hq'])]
      · rw [if_neg (by simp [hq']), if_neg (by simp [hq'])]
        exact ih

theorem mapGet_append_single_ne {β : Type} (m : JsMap β) (k k' : String)
    (v : β) (h : k' ≠ k) : mapGet (m ++ [(k, v)]) k' = mapGet m k' := by
  induction m with
  | nil =>
    rw [List.nil_append, mapGet_cons, if_neg (by simp [Ne.symm h])]
  | cons p t ih =>
    rw [List.cons_append, mapGet_cons, mapGet_cons]
    by_cases hp : p.1 = k'
    · rw [if_pos (by simp [hp]), if_pos (by simp [hp])]
    · rw [if_neg (by simp [hp]), if_neg (by simp [hp])]
      exact ih

theorem mapGet_mapSet_self {β : Type} (m : JsMap β) (k : String) (v : β) :
    mapGet (mapSet m k v) k = some v := by
  induction m with
  | nil =>
    rw [show mapSet ([] : JsMap β) k v = [(k, v)] from rfl]
    rw [mapGet_cons, if_pos (by simp)]
  | cons p t ih =>
    by_cases hp : p.1 = k
    · have hh : mapHas (p :: t) k = true := by
        simp [mapHas, List.any_cons, hp]
      rw [mapSet, if_pos hh, List.map_cons]
      rw [show (if p.1 == k then (k, v) else p) = (k, v) from by simp [hp]]
      rw [mapGet_cons, if_pos (by simp)]
    · rw [mapSet_cons_ne p t k v hp]
      rw [mapGet_cons, if_neg (by simp [hp])]
      exact ih

theorem mapGet_mapSet_ne {β : Type} (m : JsMap β) (k k' : String) (v : β)
    (h : k' ≠ k) : mapGet (mapSet m k v) k' = mapGet m k' := by
  rw [mapSet]
  by_cases hh : mapHas m k = true
  · rw [if_pos hh]
    exact mapGet_map_update_ne m k k' v h
  · rw [if_neg hh]
    exact mapGet_append_single_ne m k k' v h

theorem mapGet_mapDelete_self {β : Type} (m : JsMap β) (k : String) :
    mapGet (mapDelete m k) k = none := by
  induction m with
  | nil => rfl
  | cons p t ih =>
    by_cases hp : p.1 = k
    · rw [mapDelete, List.filter_cons, if_neg (by simp [hp])]
      simpa [mapDelete] using ih
    · rw [mapDelete, List.filter_cons, if_pos (by simp [hp])]
      rw [mapGet_cons, if_neg (by simp [hp])]
      simpa [mapDelete] using ih

theorem mapGet_mapDelete_ne {β : Type} (m : JsMap β) (k k' : String)
    (h : k' ≠ k) : mapGet (mapDelete m k) k' = mapGet m k' := by
  induction m with
  | nil => rfl
  | cons p t ih =>
    by_cases hp : p.1 = k
    · rw [mapDelete, List.filter_cons, if_neg (by simp [hp])]
      rw [mapGet_cons, if_neg (by simp [hp, Ne.symm h])]
      simpa [mapDelete] using ih
    · rw [mapDelete, List.filter_cons, if_pos (by simp [hp])]
      rw [mapGet_cons, mapGet_cons]
      by_cases hp' : p.1 = k'
      · rw [if_pos (by simp [hp']), if_pos (by simp [hp'])]
      · rw [if_neg (by simp [hp']), if_neg (by simp [hp'])]
        simpa [mapDelete] using ih

theorem mapGet_touchLastSeen_self (m : JsMap UserRecord) (k : String)
    (now : Nat) :
    mapGet (touchLastSeen m k now) k
      = (mapGet m k).map (fun r => { r with lastSeen := now }) := by
  induction m with
  | nil => rfl
  | cons p t ih =>
    simp only [touchLastSeen, List.map_cons]
    by_cases hp : p.1 = k
    · rw [show (if p.1 == k then (p.1, { p.2 with lastSeen := now }) else p)
            = (p.1, { p.2 with lastSeen := now }) from by simp [hp]]
      rw [mapGet_cons, mapGet_cons, if_pos (by simp [hp]), if_pos (by simp [hp])]
      rfl
    · rw [show (if p.1 == k then (p.1, { p.2 with lastSeen := now }) else p)
            = p from by simp [hp]]
      rw [mapGet_cons, mapGet_cons, if_neg (by simp [hp]), if_neg (by simp [hp])]
      simpa [touchLastSeen] using ih

theorem mapGet_touchLastSeen_ne (m : JsMap UserRecord) (k k' : String)
    (now : Nat) (h : k' ≠ k) :
    mapGet (touchLastSeen m k now) k' = mapGet m k' := by
  induction m with
  | nil => rfl
  | cons p t ih =>
    simp only [touchLastSeen, List.map_cons]
    by_cases hp : p.1 = k
    · rw [show (if p.1 == k then (p.1, { p.2 with lastSeen := now }) else p)
            = (p.1, { p.2 with lastSeen := now }) from by simp [hp]]
      rw [mapGet_cons, mapGet_cons]
      rw [if_neg (by simp [hp, Ne.symm h]), if_neg (by simp [hp, Ne.symm h])]
      simpa [touchLastSeen] using ih
    · rw [show (if p.1 == k then (p.1, { p.2 with lastSeen := now }) else p)
            = p from by simp [hp]]
      rw [mapGet_cons, mapGet_cons]
      by_cases hp' : p.1 = k'
      · rw [if_pos (by simp [hp']), if_pos (by simp [hp'])]
      · rw [if_neg (by simp [hp']), if_neg (by simp [hp'])]
        simpa [touchLastSeen] using ih

theorem mem_cleanup (now : Nat) (users : JsMap UserRecord)
    (p : String × UserRecord) :
    p ∈ cleanupInactiveUsers now users ↔
      p ∈ users ∧ ¬ now - p.2.lastSeen > timeout := by
  simp [cleanupInactiveUsers, List.mem_filter]

theorem cleanup_fresh (now : Nat) (users : JsMap UserRecord) :
    ∀ p ∈ cleanupInactiveUsers now users, ¬ now - p.2.lastSeen > timeout :=
  fun p hp => ((mem_cleanup now users p).mp hp).2

theorem mem_mapSet {β : Type} (m : JsMap β) (k : String) (v : β)
    (p : String × β) : p ∈ mapSet m k v → p = (k, v) ∨ p ∈ m := by
  rw [mapSet]
  by_cases hh : mapHas m k = true
  · rw [if_pos hh]
    intro hp
    rcases List.mem_map.mp hp with ⟨q, hq, he⟩
    by_cases hq1 : q.1 = k
    · left
      rw [← he]
      simp [hq1]
    · right
      rw [← he]
      simpa [hq1] using hq
  · rw [if_neg hh]
    intro hp
    rcases List.mem_append.mp hp with hp | hp
    · right
      exact hp
    · left
      simpa using hp

theorem mem_touchLastSeen (m : JsMap UserRecord) (k : String) (now : Nat)
    (p : String × UserRecord) :
    p ∈ touchLastSeen m k now → p.2.lastSeen = now ∨ p ∈ m := by
  intro hp
  rcases List.mem_map.mp hp with ⟨q, hq, he⟩
  by_cases hq1 : q.1 = k
  · left
    rw [← he]
    simp [hq1]
  · right
    rw [← he]
    simpa [hq1] using hq

theorem mem_mapDelete {β : Type} (m : JsMap β) (k : String)
    (p : String × β) : p ∈ mapDelete m k → p ∈ m :=
  fun hp => (List.mem_filter.mp hp).1

theorem fetch_pending_frame (now : Nat) (st : WorkerState) (ou : Option String) :
    (fetch (.login ou) now st).2.pendingNotifications
        = st.pendingNotifications ∧
    (fetch (.heartbeat ou) now st).2.pendingNotifications
        = st.pendingNotifications ∧
    (fetch (.logout ou) now st).2.pendingNotifications
        = st.pendingNotifications ∧
    (fetch Request.users now st).2.pendingNotifications
        = st.pendingNotifications ∧
    (fetch Request.health now st).2.pendingNotifications
        = st.pendingNotifications := by
  refine ⟨?_, ?_, ?_, rfl, rfl⟩ <;> cases ou <;> simp only [fetch, handle] <;>
    first
      | rfl
      | (split <;>
          first
            | rfl
            | (split <;> rfl))

theorem touchLastSeen_key_lastSeen (m : JsMap UserRecord) (u : String)
    (now : Nat) (p : String × UserRecord) (hp : p ∈ touchLastSeen m u now)
    (hpu : p.1 = u) : p.2.lastSeen = now := by
  rcases List.mem_map.mp hp with ⟨q, hq, he⟩
  by_cases hq1 : q.1 = u
  · rw [← he]
    simp [hq1]
  · rw [← he] at hpu
    simp [hq1] at hpu

theorem mapSet_append_key {β : Type} (m : JsMap β) (u : String) (v : β)
    (p : String × β) (hh : mapHas m u = false) (hp : p ∈ mapSet m u v)
    (hpu : p.1 = u) : p = (u, v) := by
  rw [mapSet, if_neg (by simp [hh])] at hp
  rcases List.mem_append.mp hp with hp | hp
  · exact absurd hpu ((mapHas_false_iff m u).mp hh p hp)
  · simpa using hp

theorem heartbeat_entry_lastSeen (u : String) (t : Nat) (st : WorkerState)
    (hu : u ≠ "") :
    ∀ p ∈ (fetch (.heartbeat (some u)) t st).2.activeUsers,
      p.1 = u → p.2.lastSeen = t := by
  intro p hp hpu
  have hub : ¬ (u == "") = true := by simp [hu]
  simp only [fetch, handle] at hp
  rw [if_neg hub] at hp
  by_cases hh : mapHas (cleanupInactiveUsers t st.activeUsers) u = true
  · rw [if_pos hh] at hp
    exact touchLastSeen_key_lastSeen _ u t p hp hpu
  · rw [if_neg hh] at hp
    have := mapSet_append_key _ u (UserRecord.mk u t t) p
      (by simpa using hh) hp hpu
    rw [this]

/-! ### Claim theorems -/

/-- C2: `cleanupInactiveUsers now` removes exactly the presence records with
`now - lastSeen > timeout` (TTL = 10000 ms), with an exclusive boundary: a
record at exactly `now - lastSeen = timeout` survives, and after a heartbeat
registration of `u` at time `t`, a sweep at `t + timeout + 1` removes `u`'s
record. -/
theorem C2_sweep_ttl_boundary :
    (∀ (now : Nat) (users : JsMap UserRecord) (p : String × UserRecord),
        p ∈ cleanupInactiveUsers now users ↔
          p ∈ users ∧ ¬ now - p.2.lastSeen > timeout) ∧
    (∀ (u : String) (t : Nat) (st : WorkerState), u ≠ "" →
        mapHas (cleanupInactiveUsers (t + timeout + 1)
            (fetch (.heartbeat (some u)) t st).2.activeUsers) u = false) := by
  constructor
  · exact fun now users p => mem_cleanup now users p
  · intro u t st hu
    rw [mapHas_false_iff]
    intro p hp hpu
    have h1 := (mem_cleanup _ _ p).mp hp
    have h2 := heartbeat_entry_lastSeen u t st hu p h1.1 hpu
    have h3 := h1.2
    rw [h2] at h3
    simp only [timeout] at h3
    omega

/-- Witness for C2 at concrete inputs: a record exactly at the TTL boundary
survives, and a user registered by heartbeat at time 3 is gone after a sweep
at `3 + timeout + 1`. -/
theorem C2_sweep_ttl_boundary_witness :
    (("alice", UserRecord.mk "alice" 5 5) ∈
        cleanupInactiveUsers 10005 [("alice", UserRecord.mk "alice" 5 5)]) ∧
    mapHas (cleanupInactiveUsers (3 + timeout + 1)
        (fetch (.heartbeat (some "alice")) 3 initialState).2.activeUsers)
      "alice" = false := by
  constructor
  · exact (C2_sweep_ttl_boundary.1 10005 [("alice", UserRecord.mk "alice" 5 5)]
      ("alice", UserRecord.mk "alice" 5 5)).mpr ⟨by decide, by decide⟩
  · exact C2_sweep_ttl_boundary.2 "alice" 3 initialState (by decide)

/-- C3: the heartbeat is an upsert: it always succeeds for a non-empty
username; for an unknown user it creates a record with
`loginTime = lastSeen = now`; for a known user it updates only `lastSeen`
and keeps `loginTime`; records of every other username are unchanged, and
the notification mailbox is untouched. -/
theorem C3_heartbeat_upsert (u : String) (now : Nat) (st : WorkerState)
    (hu : u ≠ "") :
    (fetch (.heartbeat (some u)) now st).1 = ApiResponse.ok ∧
    (∀ k, k ≠ u →
        mapGet (fetch (.heartbeat (some u)) now st).2.activeUsers k
          = mapGet (cleanupInactiveUsers now st.activeUsers) k) ∧
    (mapGet (cleanupInactiveUsers now st.activeUsers) u = none →
        mapGet (fetch (.heartbeat (some u)) now st).2.activeUsers u
          = some (UserRecord.mk u now now)) ∧
    (∀ r, mapGet (cleanupInactiveUsers now st.activeUsers) u = some r →
        mapGet (fetch (.heartbeat (some u)) now st).2.activeUsers u
          = some (UserRecord.mk r.username now r.loginTime)) ∧
    (fetch (.heartbeat (some u)) now st).2.pendingNotifications
      = st.pendingNotifications := by
  have hub : ¬ (u == "") = true := by simp [hu]
  by_cases hh : mapHas (cleanupInactiveUsers now st.activeUsers) u = true
  · have hfe : fetch (.heartbeat (some u)) now st
        = (ApiResponse.ok,
           WorkerState.mk
             (touchLastSeen (cleanupInactiveUsers now st.activeUsers) u now)
             st.pendingNotifications) := by
      simp only [fetch, handle]
      rw [if_neg hub, if_pos hh]
    refine ⟨by rw [hfe], ?_, ?_, ?_, by rw [hfe]⟩
    · intro k hk
      rw [hfe]
      exact mapGet_touchLastSeen_ne _ u k now hk
    · intro hnone
      rw [mapHas_eq_isSome, hnone] at hh
      simp at hh
    · intro r hr
      rw [hfe]
      show mapGet (touchLastSeen _ u now) u = _
      rw [mapGet_touchLastSeen_self, hr]
      rfl
  · have hh' : mapHas (cleanupInactiveUsers now st.activeUsers) u = false := by
      simpa using hh
    have hfe : fetch (.heartbeat (some u)) now st
        = (ApiResponse.ok,
           WorkerState.mk
             (mapSet (cleanupInactiveUsers now st.activeUsers) u
               (UserRecord.mk u now now))
             st.pendingNotifications) := by
      simp only [fetch, handle]
      rw [if_neg hub, if_neg hh]
    refine ⟨by rw [hfe], ?_, ?_, ?_, by rw [hfe]⟩
    · intro k hk
      rw [hfe]
      exact mapGet_mapSet_ne _ u k _ hk
    · intro _
      rw [hfe]
      exact mapGet_mapSet_self _ u _
    · intro r hr
      rw [mapHas_eq_isSome, hr] at hh'
      simp at hh'

/-- Witness for C3 at concrete inputs: a heartbeat for unknown "bob" at time 7
registers him with `loginTime = lastSeen = 7`, and a heartbeat for known
"carl" at time 9 keeps his `loginTime` 2 while refreshing `lastSeen`. -/
theorem C3_heartbeat_upsert_witness :
    mapGet (fetch (.heartbeat (some "bob")) 7 initialState).2.activeUsers "bob"
      = some (UserRecord.mk "bob" 7 7) ∧
    mapGet (fetch (.heartbeat (some "carl")) 9
        (WorkerState.mk [("carl", UserRecord.mk "carl" 5 2)] [])).2.activeUsers
      "carl" = some (UserRecord.mk "carl" 9 2) := by
  constructor
  · exact (C3_heartbeat_upsert "bob" 7 initialState (by decide)).2.2.1 rfl
  · exact (C3_heartbeat_upsert "carl" 9
      (WorkerState.mk [("carl", UserRecord.mk "carl" 5 2)] [])
      (by decide)).2.2.2.1 (UserRecord.mk "carl" 5 2) (by decide)

theorem checkNotification_hit (u : String) (now : Nat) (st : WorkerState)
    (n : NotificationRecord) (hu : ¬ (u == "") = true)
    (hn : mapGet st.pendingNotifications u = some n) :
    fetch (.checkNotification (some u)) now st
      = (ApiResponse.notificationResp true (some n),
         WorkerState.mk (cleanupInactiveUsers now st.activeUsers)
           (mapDelete st.pendingNotifications u)) := by
  simp only [fetch, handle]
  rw [if_neg hu, hn]

theorem checkNotification_miss (u : String) (now : Nat) (st : WorkerState)
    (hu : ¬ (u == "") = true)
    (hn : mapGet st.pendingNotifications u = none) :
    fetch (.checkNotification (some u)) now st
      = (ApiResponse.notificationResp false none,
         WorkerState.mk (cleanupInactiveUsers now st.activeUsers)
           st.pendingNotifications) := by
  simp only [fetch, handle]
  rw [if_neg hu, hn]

/-- C4: consuming a notification is an atomic read-and-clear: right after a
set for `u` timestamped `t`, a take returns that notification and removes it,
an immediately following take returns the explicit no-notification response,
and a take for any username with no pending notification succeeds with the
no-notification response and leaves the mailbox unchanged. -/
theorem C4_takeFor_read_and_clear (u : String) (t now1 now2 : Nat)
    (st : WorkerState) (hu : u ≠ "") :
    ((fetch (.checkNotification (some u)) now1
        (WorkerState.mk st.activeUsers
          (mapSet st.pendingNotifications u (NotificationRecord.mk "sound" t)))).1
      = ApiResponse.notificationResp true
          (some (NotificationRecord.mk "sound" t))) ∧
    (mapGet (fetch (.checkNotification (some u)) now1
        (WorkerState.mk st.activeUsers
          (mapSet st.pendingNotifications u
            (NotificationRecord.mk "sound" t)))).2.pendingNotifications u
      = none) ∧
    ((fetch (.checkNotification (some u)) now2
        (fetch (.checkNotification (some u)) now1
          (WorkerState.mk st.activeUsers
            (mapSet st.pendingNotifications u
              (NotificationRecord.mk "sound" t)))).2).1
      = ApiResponse.notificationResp false none) ∧
    (∀ (st' : WorkerState) (now : Nat),
        mapGet st'.pendingNotifications u = none →
          (fetch (.checkNotification (some u)) now st').1
            = ApiResponse.notificationResp false none ∧
          (fetch (.checkNotification (some u)) now st').2.pendingNotifications
            = st'.pendingNotifications) := by
  have hub : ¬ (u == "") = true := by simp [hu]
  have hset : mapGet (mapSet st.pendingNotifications u
      (NotificationRecord.mk "sound" t)) u
        = some (NotificationRecord.mk "sound" t) :=
    mapGet_mapSet_self st.pendingNotifications u _
  have e1 := checkNotification_hit u now1
    (WorkerState.mk st.activeUsers
      (mapSet st.pendingNotifications u (NotificationRecord.mk "sound" t)))
    (NotificationRecord.mk "sound" t) hub hset
  have hdel : mapGet (mapDelete (mapSet st.pendingNotifications u
      (NotificationRecord.mk "sound" t)) u) u = none :=
    mapGet_mapDelete_self _ u
  refine ⟨by rw [e1], ?_, ?_, ?_⟩
  · rw [e1]
    exact hdel
  · rw [e1]
    have e2 := checkNotification_miss u now2
      (WorkerState.mk
        (cleanupInactiveUsers now1 st.activeUsers)
        (mapDelete (mapSet st.pendingNotifications u
          (NotificationRecord.mk "sound" t)) u)) hub hdel
    rw [e2]
  · intro st' now hn
    have e3 := checkNotification_miss u now st' hub hn
    exact ⟨by rw [e3], by rw [e3]⟩

/-- Witness for C4 at concrete inputs: set-then-take for "alice" returns the
stored notification, the mailbox slot is cleared, the second take reports no
notification, and a take for never-seen "carol" succeeds with no
notification. -/
theorem C4_takeFor_read_and_clear_witness :
    ((fetch (.checkNotification (some "alice")) 11
        (WorkerState.mk [] (mapSet [] "alice" (NotificationRecord.mk "sound" 4)))).1
      = ApiResponse.notificationResp true
          (some (NotificationRecord.mk "sound" 4))) ∧
    ((fetch (.checkNotification (some "carol")) 12 initialState).1
      = ApiResponse.notificationResp false none) := by
  constructor
  · exact (C4_takeFor_read_and_clear "alice" 4 11 0 initialState (by decide)).1
  · exact ((C4_takeFor_read_and_clear "carol" 0 0 0 initialState
      (by decide)).2.2.2 initialState 12 rfl).1

/-- C6: direct notify returns 404 `NotFoundError` exactly when the target is
not present in the registry after the sweep, leaving the mailbox unchanged in
that case; when the target is present it succeeds and writes a `"sound"`
notification timestamped `now`, touching no other user's slot. -/
theorem C6_notify_presence_gate (u : String) (now : Nat) (st : WorkerState)
    (hu : u ≠ "") :
    (mapHas (cleanupInactiveUsers now st.activeUsers) u = false →
        (fetch (.notify (some u)) now st).1
            = ApiResponse.notFound "User not found" ∧
        (fetch (.notify (some u)) now st).1.status = 404 ∧
        (fetch (.notify (some u)) now st).2.pendingNotifications
            = st.pendingNotifications) ∧
    (mapHas (cleanupInactiveUsers now st.activeUsers) u = true →
        (fetch (.notify (some u)) now st).1 = ApiResponse.ok ∧
        (fetch (.notify (some u)) now st).1.status = 200 ∧
        mapGet (fetch (.notify (some u)) now st).2.pendingNotifications u
            = some (NotificationRecord.mk "sound" now) ∧
        (∀ k, k ≠ u →
            mapGet (fetch (.notify (some u)) now st).2.pendingNotifications k
              = mapGet st.pendingNotifications k)) := by
  have hub : ¬ (u == "") = true := by simp [hu]
  constructor
  · intro hab
    have hfe : fetch (.notify (some u)) now st
        = (ApiResponse.notFound "User not found",
           WorkerState.mk (cleanupInactiveUsers now st.activeUsers)
             st.pendingNotifications) := by
      simp only [fetch, handle]
      rw [if_neg hub, if_neg (by simp [hab])]
    exact ⟨by rw [hfe], by rw [hfe]; rfl, by rw [hfe]⟩
  · intro hpres
    have hfe : fetch (.notify (some u)) now st
        = (ApiResponse.ok,
           WorkerState.mk (cleanupInactiveUsers now st.activeUsers)
             (mapSet st.pendingNotifications u
               (NotificationRecord.mk "sound" now))) := by
      simp only [fetch, handle]
      rw [if_neg hub, if_pos hpres]
    refine ⟨by rw [hfe], by rw [hfe]; rfl, ?_, ?_⟩
    · rw [hfe]
      exact mapGet_mapSet_self st.pendingNotifications u _
    · intro k hk
      rw [hfe]
      exact mapGet_mapSet_ne st.pendingNotifications u k _ hk

/-- Witness for C6 at concrete inputs: notifying never-present "carol" yields
404 and an untouched mailbox; notifying present "dave" succeeds and stores a
"sound" notification. -/
theorem C6_notify_presence_gate_witness :
    ((fetch (.notify (some "carol")) 0 initialState).1
      = ApiResponse.notFound "User not found") ∧
    ((fetch (.notify (some "dave")) 50
        (WorkerState.mk [("dave", UserRecord.mk "dave" 45 40)] [])).1
      = ApiResponse.ok) ∧
    (mapGet (fetch (.notify (some "dave")) 50
        (WorkerState.mk [("dave", UserRecord.mk "dave" 45 40)]
          [])).2.pendingNotifications "dave"
      = some (NotificationRecord.mk "sound" 50)) := by
  refine ⟨?_, ?_, ?_⟩
  · exact ((C6_notify_presence_gate "carol" 0 initialState (by decide)).1
      rfl).1
  · exact ((C6_notify_presence_gate "dave" 50
      (WorkerState.mk [("dave", UserRecord.mk "dave" 45 40)] [])
      (by decide)).2 (by decide)).1
  · exact ((C6_notify_presence_gate "dave" 50
      (WorkerState.mk [("dave", UserRecord.mk "dave" 45 40)] [])
      (by decide)).2 (by decide)).2.2.1

theorem mapGet_foldl_mapSet {α β : Type} (l : List (String × α))
    (acc : JsMap β) (v : β) (k : String) :
    mapGet (l.foldl (fun a p => mapSet a p.1 v) acc) k
      = if k ∈ l.map Prod.fst then some v else mapGet acc k := by
  induction l generalizing acc with
  | nil => simp
  | cons p t ih =>
    rw [List.foldl_cons, ih]
    by_cases hk : k ∈ t.map Prod.fst
    · rw [if_pos hk, if_pos (by simp [hk])]
    · rw [if_neg hk]
      by_cases hp : k = p.1
      · rw [if_pos (by simp [hp]), hp]
        exact mapGet_mapSet_self acc p.1 v
      · rw [if_neg (by simp [hp, hk])]
        exact mapGet_mapSet_ne acc p.1 k v hp

/-- C7: notify-all writes a `"sound"` notification for every user in the
swept registry snapshot, returns exactly the snapshot's size (0 when nobody
is active), leaves absent users' mailbox slots unchanged, and a user who
registers by heartbeat afterwards gains no notification from it. -/
theorem C7_broadcast_snapshot (now : Nat) (st : WorkerState) :
    ((fetch Request.notifyAll now st).1
      = ApiResponse.notifiedAll
          (cleanupInactiveUsers now st.activeUsers).length) ∧
    (∀ p ∈ cleanupInactiveUsers now st.activeUsers,
        mapGet (fetch Request.notifyAll now st).2.pendingNotifications p.1
          = some (NotificationRecord.mk "sound" now)) ∧
    (∀ u, mapHas (cleanupInactiveUsers now st.activeUsers) u = false →
        mapGet (fetch Request.notifyAll now st).2.pendingNotifications u
          = mapGet st.pendingNotifications u) ∧
    (∀ (ou : Option String) (t : Nat),
        (fetch (.heartbeat ou) t
            (fetch Request.notifyAll now st).2).2.pendingNotifications
          = (fetch Request.notifyAll now st).2.pendingNotifications) := by
  refine ⟨rfl, ?_, ?_, ?_⟩
  · intro p hp
    show mapGet ((cleanupInactiveUsers now st.activeUsers).foldl
      (fun acc q => mapSet acc q.1 (NotificationRecord.mk "sound" now))
      st.pendingNotifications) p.1 = _
    rw [mapGet_foldl_mapSet]
    rw [if_pos (List.mem_map_of_mem Prod.fst hp)]
  · intro u hab
    show mapGet ((cleanupInactiveUsers now st.activeUsers).foldl
      (fun acc q => mapSet acc q.1 (NotificationRecord.mk "sound" now))
      st.pendingNotifications) u = _
    rw [mapGet_foldl_mapSet]
    rw [if_neg ?_]
    intro hc
    rcases List.mem_map.mp hc with ⟨q, hq, he⟩
    exact (mapHas_false_iff _ u).mp hab q hq he
  · intro ou t
    exact (fetch_pending_frame t (fetch Request.notifyAll now st).2 ou).2.1

/-- Witness for C7 at concrete inputs: with exactly one active user "dave",
notify-all reports 1, writes dave's notification, and leaves absent "erin"
without one. -/
theorem C7_broadcast_snapshot_witness :
    ((fetch Request.notifyAll 100
        (WorkerState.mk [("dave", UserRecord.mk "dave" 100 50)] [])).1
      = ApiResponse.notifiedAll 1) ∧
    (mapGet (fetch Request.notifyAll 100
        (WorkerState.mk [("dave", UserRecord.mk "dave" 100 50)]
          [])).2.pendingNotifications "dave"
      = some (NotificationRecord.mk "sound" 100)) ∧
    (mapGet (fetch Request.notifyAll 100
        (WorkerState.mk [("dave", UserRecord.mk "dave" 100 50)]
          [])).2.pendingNotifications "erin" = none) := by
  refine ⟨?_, ?_, ?_⟩
  · exact (C7_broadcast_snapshot 100
      (WorkerState.mk [("dave", UserRecord.mk "dave" 100 50)] [])).1
  · exact (C7_broadcast_snapshot 100
      (WorkerState.mk [("dave", UserRecord.mk "dave" 100 50)] [])).2.1
      ("dave", UserRecord.mk "dave" 100 50) (by decide)
  · exact ((C7_broadcast_snapshot 100
      (WorkerState.mk [("dave", UserRecord.mk "dave" 100 50)] [])).2.2.1
      "erin" (by decide)).trans rfl

/-- C8: the login path trims surrounding whitespace and rejects blank input:
a username that is non-empty after trimming is accepted and answered with
its trimmed identity (and registered when it is not the admin constant),
while a missing, empty, or whitespace-only username yields HTTP 400 and the
login action leaves the state unchanged apart from the sweep. -/
theorem C8_login_normalization (st : WorkerState) (now : Nat) :
    (∀ s : String, jsTrim s ≠ "" →
        (fetch (.login (some s)) now st).1
          = ApiResponse.loginOk (jsTrim s == ADMIN_USERNAME) (jsTrim s)) ∧
    (∀ s : String, jsTrim s ≠ "" → jsTrim s ≠ ADMIN_USERNAME →
        mapGet (fetch (.login (some s)) now st).2.activeUsers (jsTrim s)
          = some (UserRecord.mk (jsTrim s) now now)) ∧
    ((fetch (.login none) now st).1.status = 400 ∧
      (fetch (.login none) now st).2
        = WorkerState.mk (cleanupInactiveUsers now st.activeUsers)
            st.pendingNotifications) ∧
    (∀ s : String, jsTrim s = "" →
        (fetch (.login (some s)) now st).1.status = 400 ∧
        (fetch (.login (some s)) now st).2
          = WorkerState.mk (cleanupInactiveUsers now st.activeUsers)
              st.pendingNotifications) := by
  have hvalid : ∀ s : String, jsTrim s ≠ "" →
      ¬ ((s == "" || jsTrim s == "") = true) := by
    intro s hne hc
    rcases (by simpa using hc : s = "" ∨ jsTrim s = "") with h | h
    · exact hne (by rw [h]; rfl)
    · exact hne h
  refine ⟨?_, ?_, ⟨rfl, rfl⟩, ?_⟩
  · intro s hne
    by_cases htr : jsTrim s = ADMIN_USERNAME
    · have hfe : fetch (.login (some s)) now st
          = (ApiResponse.loginOk (jsTrim s == ADMIN_USERNAME) (jsTrim s),
             WorkerState.mk (cleanupInactiveUsers now st.activeUsers)
               st.pendingNotifications) := by
        simp only [fetch, handle]
        rw [if_neg (hvalid s hne), if_neg (by simp [htr])]
      rw [hfe]
    · have hfe : fetch (.login (some s)) now st
          = (ApiResponse.loginOk (jsTrim s == ADMIN_USERNAME) (jsTrim s),
             WorkerState.mk
               (mapSet (cleanupInactiveUsers now st.activeUsers) (jsTrim s)
                 (UserRecord.mk (jsTrim s) now now))
               st.pendingNotifications) := by
        simp only [fetch, handle]
        rw [if_neg (hvalid s hne), if_pos (by simp [htr])]
      rw [hfe]
  · intro s hne htr
    have hfe : fetch (.login (some s)) now st
        = (ApiResponse.loginOk (jsTrim s == ADMIN_USERNAME) (jsTrim s),
           WorkerState.mk
             (mapSet (cleanupInactiveUsers now st.activeUsers) (jsTrim s)
               (UserRecord.mk (jsTrim s) now now))
             st.pendingNotifications) := by
      simp only [fetch, handle]
      rw [if_neg (hvalid s hne), if_pos (by simp [htr])]
    rw [hfe]
    exact mapGet_mapSet_self _ _ _
  · intro s hts
    have hfe : fetch (.login (some s)) now st
        = (ApiResponse.badRequest "Invalid username",
           WorkerState.mk (cleanupInactiveUsers now st.activeUsers)
             st.pendingNotifications) := by
      simp only [fetch, handle]
      rw [if_pos (by simp [hts])]
    exact ⟨by rw [hfe]; rfl, by rw [hfe]⟩

/-- Witness for C8 at concrete inputs: logging in as `"  alice  "` answers
and registers the trimmed identity `"alice"`, while a whitespace-only
username is rejected with HTTP 400. -/
theorem C8_login_normalization_witness :
    ((fetch (.login (some "  alice  ")) 5 initialState).1
      = ApiResponse.loginOk false "alice") ∧
    (mapGet (fetch (.login (some "  alice  ")) 5
        initialState).2.activeUsers "alice"
      = some (UserRecord.mk "alice" 5 5)) ∧
    ((fetch (.login (some "   ")) 5 initialState).1.status = 400) := by
  refine ⟨?_, ?_, ?_⟩
  · rw [(C8_login_normalization initialState 5).1 "  alice  " (by decide)]
    decide
  · have h := (C8_login_normalization initialState 5).2.1 "  alice  "
      (by decide) (by decide)
    rw [show jsTrim "  alice  " = "alice" from by decide] at h
    exact h
  · exact ((C8_login_normalization initialState 5).2.2.2 "   " (by decide)).1

/-- C1 counterexample: the admin identity is not kept out of the registry by
every operation — a single heartbeat request bearing `ADMIN_USERNAME` stores
a presence record for it, which then shows up in the `/users` listing. -/
theorem C1_admin_never_stored_counterexample :
    mapHas (runRequests [(Request.heartbeat (some ADMIN_USERNAME), 0)]
        initialState).activeUsers ADMIN_USERNAME = true ∧
    (fetch Request.users 1 (runRequests
        [(Request.heartbeat (some ADMIN_USERNAME), 0)] initialState)).1
      = ApiResponse.usersList [UserRecord.mk ADMIN_USERNAME 0 0] 1 := by
  decide

/-- C1 (amended): the login path never stores the admin identity — a login
whose trimmed username equals `ADMIN_USERNAME` resolves the privilege flag
and leaves the state unchanged apart from the sweep; the heartbeat path,
however, does store a record for the admin username (see the
counterexample). -/
theorem C1_admin_login_not_stored (st : WorkerState) (now : Nat) (s : String)
    (h : jsTrim s = ADMIN_USERNAME) :
    (fetch (.login (some s)) now st).1
      = ApiResponse.loginOk true ADMIN_USERNAME ∧
    (fetch (.login (some s)) now st).2
      = WorkerState.mk (cleanupInactiveUsers now st.activeUsers)
          st.pendingNotifications := by
  have hne : jsTrim s ≠ "" := by
    rw [h]
    decide
  have hcond : ¬ ((s == "" || jsTrim s == "") = true) := by
    intro hc
    rcases (by simpa using hc : s = "" ∨ jsTrim s = "") with h0 | h0
    · exact hne (by rw [h0]; rfl)
    · exact hne h0
  have hfe : fetch (.login (some s)) now st
      = (ApiResponse.loginOk (jsTrim s == ADMIN_USERNAME) (jsTrim s),
         WorkerState.mk (cleanupInactiveUsers now st.activeUsers)
           st.pendingNotifications) := by
    simp only [fetch, handle]
    rw [if_neg hcond, if_neg (by simp [h])]
  rw [hfe, h]
  refine ⟨?_, rfl⟩
  show ApiResponse.loginOk (ADMIN_USERNAME == ADMIN_USERNAME) ADMIN_USERNAME
      = ApiResponse.loginOk true ADMIN_USERNAME
  rw [show (ADMIN_USERNAME == ADMIN_USERNAME) = true from by decide]

/-- Witness for the amended C1 at a concrete input: logging in as
`"admin0707"` answers with the privilege flag and stores nothing. -/
theorem C1_admin_login_not_stored_witness :
    (fetch (.login (some "admin0707")) 5 initialState).1
      = ApiResponse.loginOk true ADMIN_USERNAME ∧
    (fetch (.login (some "admin0707")) 5 initialState).2
      = WorkerState.mk (cleanupInactiveUsers 5 initialState.activeUsers)
          initialState.pendingNotifications :=
  C1_admin_login_not_stored initialState 5 "admin0707" (by decide)

theorem fetch_post_fresh (req : Request) (now : Nat) (st : WorkerState) :
    ∀ p ∈ (fetch req now st).2.activeUsers, ¬ now - p.2.lastSeen > timeout := by
  have hA := cleanup_fresh now st.activeUsers
  have hnow : ¬ now - now > timeout := by
    simp only [timeout]
    omega
  intro p hp
  cases req with
  | login ou =>
    cases ou with
    | none => exact hA p hp
    | some u =>
      simp only [fetch, handle] at hp
      split at hp
      · exact hA p hp
      · split at hp
        · rcases mem_mapSet _ _ _ p hp with he | hm
          · rw [he]
            exact hnow
          · exact hA p hm
        · exact hA p hp
  | heartbeat ou =>
    cases ou with
    | none => exact hA p hp
    | some u =>
      simp only [fetch, handle] at hp
      split at hp
      · exact hA p hp
      · split at hp
        · rcases mem_touchLastSeen _ _ _ p hp with hl | hm
          · rw [hl]
            exact hnow
          · exact hA p hm
        · rcases mem_mapSet _ _ _ p hp with he | hm
          · rw [he]
            exact hnow
          · exact hA p hm
  | logout ou =>
    cases ou with
    | none => exact hA p hp
    | some u =>
      simp only [fetch, handle] at hp
      split at hp
      · exact hA p hp
      · exact hA p (mem_mapDelete _ _ p hp)
  | users => exact hA p hp
  | notify ou =>
    cases ou with
    | none => exact hA p hp
    | some u =>
      simp only [fetch, handle] at hp
      split at hp
      · exact hA p hp
      · split at hp
        · exact hA p hp
        · exact hA p hp
  | notifyAll => exact hA p hp
  | checkNotification ou =>
    cases ou with
    | none => exact hA p hp
    | some u =>
      simp only [fetch, handle] at hp
      split at hp
      · exact hA p hp
      · split at hp
        · exact hA p hp
        · exact hA p hp
  | health => exact hA p hp

/-- C9: every request first sweeps the registry and only then acts: the
whole outcome of `fetch` depends only on the swept registry (states agreeing
after the sweep are indistinguishable to every operation, so removed stale
records can never be read), and the post-state registry never holds a record
that is stale beyond the TTL at the request's time. -/
theorem C9_sweep_runs_first (req : Request) (now : Nat) (st1 st2 : WorkerState)
    (ha : cleanupInactiveUsers now st1.activeUsers
        = cleanupInactiveUsers now st2.activeUsers)
    (hpend : st1.pendingNotifications = st2.pendingNotifications) :
    fetch req now st1 = fetch req now st2 ∧
    (∀ p ∈ (fetch req now st1).2.activeUsers,
        ¬ now - p.2.lastSeen > timeout) := by
  constructor
  · show handle req now
        (WorkerState.mk (cleanupInactiveUsers now st1.activeUsers)
          st1.pendingNotifications)
      = handle req now
        (WorkerState.mk (cleanupInactiveUsers now st2.activeUsers)
          st2.pendingNotifications)
    rw [ha, hpend]
  · exact fetch_post_fresh req now st1

/-- Witness for C9 at concrete inputs: a state holding only a stale record
behaves exactly like the empty state at time 20000, and the post-state holds
no stale record. -/
theorem C9_sweep_runs_first_witness :
    (fetch Request.users 20000
        (WorkerState.mk [("old", UserRecord.mk "old" 0 0)] [])
      = fetch Request.users 20000 initialState) ∧
    (∀ p ∈ (fetch Request.users 20000
        (WorkerState.mk [("old", UserRecord.mk "old" 0 0)] [])).2.activeUsers,
      ¬ 20000 - p.2.lastSeen > timeout) :=
  C9_sweep_runs_first Request.users 20000
    (WorkerState.mk [("old", UserRecord.mk "old" 0 0)] []) initialState
    (by decide) rfl

theorem keys_mapSet_nodup {β : Type} (m : JsMap β) (k : String) (v : β)
    (h : (m.map Prod.fst).Nodup) : ((mapSet m k v).map Prod.fst).Nodup := by
  rw [mapSet]
  by_cases hh : mapHas m k = true
  · rw [if_pos hh]
    have hkeys : (m.map (fun p => if p.1 == k then (k, v) else p)).map Prod.fst
        = m.map Prod.fst := by
      rw [List.map_map]
      apply List.map_congr_left
      intro q _
      by_cases hq : q.1 = k
      · simp [hq]
      · simp [hq]
    rw [hkeys]
    exact h
  · rw [if_neg hh, List.map_append]
    have hk : k ∉ m.map Prod.fst := by
      intro hc
      rcases List.mem_map.mp hc with ⟨q, hq, he⟩
      exact (mapHas_false_iff m k).mp (by simpa using hh) q hq he
    rw [List.nodup_append]
    refine ⟨h, by simp, ?_⟩
    intro a ha hb
    simp at hb
    exact hk (hb ▸ ha)

theorem keys_mapDelete_nodup {β : Type} (m : JsMap β) (k : String)
    (h : (m.map Prod.fst).Nodup) : ((mapDelete m k).map Prod.fst).Nodup :=
  ((List.filter_sublist m).map Prod.fst).nodup h

theorem keys_foldl_mapSet_nodup {α β : Type} (l : List (String × α))
    (acc : JsMap β) (v : β) (h : (acc.map Prod.fst).Nodup) :
    (((l.foldl (fun a p => mapSet a p.1 v) acc)).map Prod.fst).Nodup := by
  induction l generalizing acc with
  | nil => exact h
  | cons p t ih => exact ih (mapSet acc p.1 v) (keys_mapSet_nodup acc p.1 v h)

theorem fetch_pending_nodup (req : Request) (now : Nat) (st : WorkerState)
    (h : (st.pendingNotifications.map Prod.fst).Nodup) :
    (((fetch req now st).2.pendingNotifications).map Prod.fst).Nodup := by
  cases req with
  | login ou =>
    rw [(fetch_pending_frame now st ou).1]
    exact h
  | heartbeat ou =>
    rw [(fetch_pending_frame now st ou).2.1]
    exact h
  | logout ou =>
    rw [(fetch_pending_frame now st ou).2.2.1]
    exact h
  | users => exact h
  | health => exact h
  | notify ou =>
    cases ou with
    | none => exact h
    | some u =>
      simp only [fetch, handle]
      split
      · exact h
      · split
        · exact keys_mapSet_nodup st.pendingNotifications u _ h
        · exact h
  | notifyAll => exact keys_foldl_mapSet_nodup _ st.pendingNotifications _ h
  | checkNotification ou =>
    cases ou with
    | none => exact h
    | some u =>
      simp only [fetch, handle]
      split
      · exact h
      · split
        · exact keys_mapDelete_nodup st.pendingNotifications u h
        · exact h

theorem runRequests_pending_nodup (reqs : List (Request × Nat)) :
    ∀ st : WorkerState, (st.pendingNotifications.map Prod.fst).Nodup →
      (((runRequests reqs st).pendingNotifications).map Prod.fst).Nodup := by
  induction reqs with
  | nil => exact fun st h => h
  | cons rn t ih =>
    intro st h
    exact ih (fetch rn.1 rn.2 st).2 (fetch_pending_nodup rn.1 rn.2 st h)

theorem filter_mapSet_self {β : Type} (m : JsMap β) (k : String) (v : β)
    (h : (m.map Prod.fst).Nodup) :
    (mapSet m k v).filter (fun p => p.1 == k) = [(k, v)] := by
  induction m with
  | nil =>
    rw [show mapSet ([] : JsMap β) k v = [(k, v)] from rfl]
    rw [List.filter_cons, if_pos (by simp)]
    rfl
  | cons p t ih =>
    rcases List.nodup_cons.mp h with ⟨hp_not, ht⟩
    by_cases hp : p.1 = k
    · have hh : mapHas (p :: t) k = true := by
        simp [mapHas, List.any_cons, hp]
      rw [mapSet, if_pos hh, List.map_cons]
      rw [show (if p.1 == k then (k, v) else p) = (k, v) from by simp [hp]]
      rw [List.filter_cons, if_pos (by simp)]
      have hrest : (t.map (fun q => if q.1 == k then (k, v) else q)).filter
          (fun q => q.1 == k) = [] := by
        rw [List.filter_eq_nil_iff]
        intro q hq
        rcases List.mem_map.mp hq with ⟨q0, hq0, he⟩
        rw [← he]
        have h0 : q0.1 ≠ k := by
          intro hc
          exact hp_not (by
            rw [← hp] at hc
            exact hc ▸ List.mem_map_of_mem Prod.fst hq0)
        simp [h0]
      rw [hrest]
    · rw [mapSet_cons_ne p t k v hp, List.filter_cons, if_neg (by simp [hp])]
      exact ih ht

/-- C5: the mailbox is single-slot per username: starting from the empty
worker state, any request sequence keeps the pending-notification keys free
of duplicates, and a second set for the same username overwrites the first
instead of queueing — exactly one record, carrying the second timestamp,
remains for that key. -/
theorem C5_mailbox_single_slot :
    (∀ reqs : List (Request × Nat),
        (((runRequests reqs initialState).pendingNotifications).map
            Prod.fst).Nodup) ∧
    (∀ (m : JsMap NotificationRecord) (u : String) (t1 t2 : Nat),
        (m.map Prod.fst).Nodup →
        (mapSet (mapSet m u (NotificationRecord.mk "sound" t1)) u
            (NotificationRecord.mk "sound" t2)).filter (fun p => p.1 == u)
          = [(u, NotificationRecord.mk "sound" t2)]) := by
  constructor
  · intro reqs
    exact runRequests_pending_nodup reqs initialState (by simp [initialState])
  · intro m u t1 t2 h
    exact filter_mapSet_self _ u _ (keys_mapSet_nodup m u _ h)

/-- Witness for C5 at concrete inputs: a three-request run keeps mailbox
keys duplicate-free, and a double set for "walt" over a one-entry mailbox
leaves exactly one record with the second timestamp. -/
theorem C5_mailbox_single_slot_witness :
    ((((runRequests [(Request.heartbeat (some "walt"), 0),
          (Request.notify (some "walt"), 1), (Request.notifyAll, 2)]
          initialState).pendingNotifications).map Prod.fst).Nodup) ∧
    ((mapSet (mapSet [("x", NotificationRecord.mk "sound" 9)] "walt"
          (NotificationRecord.mk "sound" 1)) "walt"
          (NotificationRecord.mk "sound" 2)).filter (fun p => p.1 == "walt")
      = [("walt", NotificationRecord.mk "sound" 2)]) := by
  constructor
  · exact C5_mailbox_single_slot.1 [(Request.heartbeat (some "walt"), 0),
      (Request.notify (some "walt"), 1), (Request.notifyAll, 2)]
  · exact C5_mailbox_single_slot.2 [("x", NotificationRecord.mk "sound" 9)]
      "walt" 1 2 (by decide)

/-- C10: the sweep and the presence operations never touch the mailbox:
login, heartbeat, logout, the user listing and the health check (each of
which runs `cleanupInactiveUsers`) leave `pendingNotifications` exactly as
they found it, so a notification stored for `u` survives `u`'s logout and a
later sweep, and is still delivered by the next take for `u`. -/
theorem C10_sweep_mailbox_frame (u : String) (n : NotificationRecord)
    (st : WorkerState) (now1 now2 now3 : Nat) (hu : u ≠ "")
    (hn : mapGet st.pendingNotifications u = some n) :
    (∀ (ou : Option String) (now : Nat),
        (fetch (.login ou) now st).2.pendingNotifications
            = st.pendingNotifications ∧
        (fetch (.heartbeat ou) now st).2.pendingNotifications
            = st.pendingNotifications ∧
        (fetch (.logout ou) now st).2.pendingNotifications
            = st.pendingNotifications ∧
        (fetch Request.users now st).2.pendingNotifications
            = st.pendingNotifications ∧
        (fetch Request.health now st).2.pendingNotifications
            = st.pendingNotifications) ∧
    ((fetch (.checkNotification (some u)) now3
        (fetch Request.users now2
          (fetch (.logout (some u)) now1 st).2).2).1
      = ApiResponse.notificationResp true (some n)) := by
  have hub : ¬ (u == "") = true := by simp [hu]
  constructor
  · exact fun ou now => fetch_pending_frame now st ou
  · have h1 : (fetch (.logout (some u)) now1 st).2.pendingNotifications
        = st.pendingNotifications :=
      (fetch_pending_frame now1 st (some u)).2.2.1
    have h2 : (fetch Request.users now2
        (fetch (.logout (some u)) now1 st).2).2.pendingNotifications
          = st.pendingNotifications := by
      rw [(fetch_pending_frame now2 _ none).2.2.2.1, h1]
    have e := checkNotification_hit u now3
      (fetch Request.users now2 (fetch (.logout (some u)) now1 st).2).2 n hub
      (by rw [h2, hn])
    rw [e]

/-- Witness for C10 at concrete inputs: "walt"'s pending notification
survives his logout and a later sweeping request, and the next take still
delivers it. -/
theorem C10_sweep_mailbox_frame_witness :
    (fetch (.checkNotification (some "walt")) 99999
        (fetch Request.users 50000
          (fetch (.logout (some "walt")) 20
            (WorkerState.mk [("walt", UserRecord.mk "walt" 10 10)]
              [("walt", NotificationRecord.mk "sound" 15)])).2).2).1
      = ApiResponse.notificationResp true
          (some (NotificationRecord.mk "sound" 15)) :=
  (C10_sweep_mailbox_frame "walt" (NotificationRecord.mk "sound" 15)
    (WorkerState.mk [("walt", UserRecord.mk "walt" 10 10)]
      [("walt", NotificationRecord.mk "sound" 15)])
    20 50000 99999 (by decide) (by decide)).2
